import Mathlib

/-!
Verification development for the `KarmaOutput` trigger-shaping state machine
of `software/contrib/karma.py`.

The embedding mirrors the Python class `KarmaOutput`:
* configuration fields are the seven validated parameters, held as integers;
* runtime fields are the timestamps (`Option Nat`, `none` standing for
  Python's `None`), the `occurrences` counter and the output levels;
* Python truthiness tests (`if not self._x:`) are modelled by `pyTruthy`,
  which treats both `none` and a stored `0` as falsy, exactly as Python does;
* `time.ticks_ms` / `time.ticks_diff` follow the MicroPython semantics:
  tick values live in `[0, 2^30)` and `ticks_diff` is the wraparound-safe
  signed difference;
* the float division of `_get_division_duration` is modelled exactly over `ℚ`
  (all values reached in the theorems below are exactly representable);
* the random source `randint(1, 100)` is a function `Nat → Nat` together with
  an index that advances on every draw;
* a `tick` (`KarmaOutput.main`) returns `Option (KState × Nat)`: `none` models
  a raised `TypeError`, which happens precisely when the code evaluates
  `time.ticks_diff(current_time, self._output_ended_at)` with the field
  still `None`;
* calls to `self._cv.value(...)` are recorded in the `cv_writes` list.
-/

namespace Karma

/-- MicroPython tick period: ticks_ms values live in `[0, 2^30)`. -/
def TICKS_PERIOD : Int := 2 ^ 30

/-- Half the tick period, used by the wraparound-safe difference. -/
def TICKS_HALF : Int := 2 ^ 29

/-- MicroPython `time.ticks_diff(a, b)`: signed wraparound-safe difference
in `[-2^29, 2^29)`. -/
def ticksDiff (a b : Nat) : Int :=
  ((a : Int) - (b : Int) + TICKS_HALF) % TICKS_PERIOD - TICKS_HALF

/-- Python truthiness of an optional stored timestamp: `None` and `0` are
falsy, any other integer is truthy. -/
def pyTruthy : Option Nat → Bool
  | none => false
  | some v => v != 0

/-- The `BEGIN_AT_START` class constant of `KarmaOutput`. -/
def BEGIN_AT_START : Int := 0

/-- The `BEGIN_AT_END` class constant of `KarmaOutput`. -/
def BEGIN_AT_END : Int := 1

/-- Configuration fields of `KarmaOutput` (the seven validated parameters). -/
structure KarmaConfig where
  beginning : Int
  delay : Int
  duration : Int
  divisions : Int
  repetitions : Int
  probability : Int
  probability_per_division : Int
deriving DecidableEq

/-- Runtime state of one `KarmaOutput`.

The field `division_occurrences` is a ghost counter. Modelled from the spec:
the specification's data model lists `divisionOccurrences: u32 (completed
divisions in current run)` but the Python class has no such attribute; the
counter is modelled here as incrementing exactly when a started division
completes (the code clears `_division_started_at`) and clearing on `_reset`.
The field `cv_writes` records the values passed to `self._cv.value(...)`. -/
structure KState where
  output : Bool
  previous_output : Bool
  trigger_started_at : Option Nat
  output_started_at : Option Nat
  output_ended_at : Option Nat
  division_started_at : Option Nat
  occurrences : Nat
  division_occurrences : Nat
  cv_writes : List Bool
deriving DecidableEq

/-- Runtime state right after `KarmaOutput.__init__`. -/
def initState : KState :=
  { output := false
    previous_output := false
    trigger_started_at := none
    output_started_at := none
    output_ended_at := none
    division_started_at := none
    occurrences := 0
    division_occurrences := 0
    cv_writes := [] }

/-- A random source: the stream of `randint(1, 100)` results. -/
def RandS : Type := Nat → Nat

/-- The random source produces values in `[1, 100]`, as `randint(1, 100)`
does. -/
def rangedRand (r : RandS) : Prop := ∀ n, 1 ≤ r n ∧ r n ≤ 100

/-- `KarmaOutput._can_output`: `randint(1, 100) <= probability`, with the
draw `v` made explicit. -/
def can_output (probability : Int) (v : Nat) : Bool :=
  (v : Int) ≤ probability

/-- `KarmaOutput._get_division_duration`: the full duration for a single
division, else `duration / (divisions * 2 + 1)` (Python float division,
modelled exactly over `ℚ`; `Rat.divInt` is that exact quotient, see
`getDivisionDuration_eq`). -/
def getDivisionDuration (c : KarmaConfig) : ℚ :=
  if c.divisions = 1 then (c.duration : ℚ)
  else Rat.divInt c.duration (c.divisions * 2 + 1)

/-- The division slice is the rational quotient `duration / (divisions*2+1)`
when `divisions ≠ 1`. -/
lemma getDivisionDuration_eq (c : KarmaConfig) :
    getDivisionDuration c =
      if c.divisions = 1 then (c.duration : ℚ)
      else (c.duration : ℚ) / ((c.divisions : ℚ) * 2 + 1) := by
  unfold getDivisionDuration
  split_ifs with h
  · rfl
  · rw [Rat.divInt_eq_div]
    push_cast
    ring_nf

/-- `KarmaOutput._start`: draw the run-level probability gate (always
consuming one random value) and on success record the trigger time. -/
def startTrig (c : KarmaConfig) (s : KState) (now : Nat) (r : RandS) (i : Nat) :
    KState × Nat :=
  if can_output c.probability (r i) then
    ({ s with trigger_started_at := some now }, i + 1)
  else (s, i + 1)

/-- `KarmaOutput._reset`: forces the output LOW and clears `occurrences`,
`_trigger_started_at`, `_division_started_at` and `_output_started_at`.
It does NOT touch `_output_ended_at` or `_previous_output`.
The ghost `division_occurrences` counter is cleared here, following the
spec's description of `reset` (modelled from the spec, see `KState`). -/
def resetK (s : KState) : KState :=
  { s with
    output := false
    occurrences := 0
    trigger_started_at := none
    division_started_at := none
    output_started_at := none
    division_occurrences := 0 }

/-- `KarmaOutput.start`: reset, then arm when `beginning == BEGIN_AT_START`. -/
def startK (c : KarmaConfig) (s : KState) (now : Nat) (r : RandS) (i : Nat) :
    KState × Nat :=
  if c.beginning = BEGIN_AT_START then startTrig c (resetK s) now r i
  else (resetK s, i)

/-- `KarmaOutput.end`: arm when `beginning == BEGIN_AT_END`, otherwise do
nothing at all. -/
def endK (c : KarmaConfig) (s : KState) (now : Nat) (r : RandS) (i : Nat) :
    KState × Nat :=
  if c.beginning = BEGIN_AT_END then startTrig c s now r i
  else (s, i)

/-- `KarmaOutput.manual_start`: reset then arm unconditionally. -/
def manualStartK (c : KarmaConfig) (s : KState) (now : Nat) (r : RandS)
    (i : Nat) : KState × Nat :=
  startTrig c (resetK s) now r i

/-- Lines 220-222 of `KarmaOutput.main`: when the output level changed,
record it in `_previous_output` and write it to the CV output. -/
def finalize (s : KState) : KState :=
  if s.output ≠ s.previous_output then
    { s with previous_output := s.output, cv_writes := s.cv_writes ++ [s.output] }
  else s

/-- Lines 185-200 of `KarmaOutput.main`: start the output once the delay has
elapsed, or end the karma run once the duration has elapsed. Returns `none`
for the `TypeError` raised by `time.ticks_diff(current_time, None)` in the
repeat branch when `_output_ended_at` is `None`. -/
def phase1K (c : KarmaConfig) (s : KState) (now : Nat) (r : RandS) (i : Nat) :
    Option (KState × Nat) :=
  if ¬ pyTruthy s.output_started_at ∧
      c.delay ≤ ticksDiff now (s.trigger_started_at.getD 0) then
    some ({ s with output_started_at := some now }, i)
  else if pyTruthy s.output_started_at ∧
      c.duration ≤ ticksDiff now (s.output_started_at.getD 0) then
    if 0 < c.repetitions ∧ (s.occurrences : Int) < c.repetitions then
      if pyTruthy s.output_ended_at then
        some ({ s with output_ended_at := some now }, i)
      else
        match s.output_ended_at with
        | none => none
        | some e =>
          if c.duration ≤ ticksDiff now e then
            some (startTrig c (resetK { s with occurrences := s.occurrences + 1 }) now r i)
          else some (s, i)
    else
      some (resetK s, i)
  else some (s, i)

/-- Lines 202-218 of `KarmaOutput.main`: handle the current division.
The local float values `division_running_time`, `division_duration` and
`full_division_duration` of the source appear inlined. -/
def divisionK (c : KarmaConfig) (s : KState) (now : Nat) (r : RandS) (i : Nat) :
    KState × Nat :=
  if pyTruthy s.output_started_at ∧ ¬ pyTruthy s.output_ended_at then
    if ¬ pyTruthy s.division_started_at then
      if can_output c.probability_per_division (r i) then
        ({ s with division_started_at := some now, output := true }, i + 1)
      else ({ s with division_started_at := some now }, i + 1)
    else
      if getDivisionDuration c ≤
            ((ticksDiff now (s.division_started_at.getD 0) : Int) : ℚ) ∧
          ((ticksDiff now (s.division_started_at.getD 0) : Int) : ℚ) <
            getDivisionDuration c * 2 then
        ({ s with output := false }, i)
      else if getDivisionDuration c * 2 ≤
          ((ticksDiff now (s.division_started_at.getD 0) : Int) : ℚ) then
        ({ s with division_started_at := none,
                  division_occurrences := s.division_occurrences + 1 }, i)
      else (s, i)
  else (s, i)

/-- `KarmaOutput.main`, one polling tick at clock reading `now`. -/
def mainK (c : KarmaConfig) (s : KState) (now : Nat) (r : RandS) (i : Nat) :
    Option (KState × Nat) :=
  if pyTruthy s.trigger_started_at then
    match phase1K c s now r i with
    | none => none
    | some (s1, i1) =>
      let p := divisionK c s1 now r i1
      some (finalize p.1, p.2)
  else
    some (finalize { s with output := false }, i)

/-- The externally driven operations on one `KarmaOutput`, each carrying the
clock reading at the moment of the call. -/
inductive KOp where
  | start (now : Nat)
  | inputEnd (now : Nat)
  | manualStart (now : Nat)
  | tick (now : Nat)
deriving DecidableEq

/-- One operation applied to a state. -/
def stepOp (c : KarmaConfig) (s : KState) (op : KOp) (r : RandS) (i : Nat) :
    Option (KState × Nat) :=
  match op with
  | .start n => some (startK c s n r i)
  | .inputEnd n => some (endK c s n r i)
  | .manualStart n => some (manualStartK c s n r i)
  | .tick n => mainK c s n r i

/-- Run a sequence of operations, stopping with `none` on the first raised
error. -/
def runOps (c : KarmaConfig) (s : KState) (ops : List KOp) (r : RandS)
    (i : Nat) : Option (KState × Nat) :=
  match ops with
  | [] => some (s, i)
  | op :: rest =>
    match stepOp c s op r i with
    | none => none
    | some (s1, i1) => runOps c s1 rest r i1

/-- Validity of a configuration: the ranges enforced by the setters. -/
def validConfig (c : KarmaConfig) : Prop :=
  (c.beginning = BEGIN_AT_START ∨ c.beginning = BEGIN_AT_END) ∧
  (0 ≤ c.delay ∧ c.delay ≤ 10000) ∧
  (10 ≤ c.duration ∧ c.duration ≤ 10000) ∧
  (1 ≤ c.divisions ∧ c.divisions ≤ 100) ∧
  (0 ≤ c.repetitions ∧ c.repetitions ≤ 100) ∧
  (1 ≤ c.probability ∧ c.probability ≤ 100) ∧
  (1 ≤ c.probability_per_division ∧ c.probability_per_division ≤ 100)

/-- Property setter for `beginning`: `none` models the raised `ValueError`. -/
def beginning_set (c : KarmaConfig) (v : Int) : Option KarmaConfig :=
  if v = BEGIN_AT_START ∨ v = BEGIN_AT_END then some { c with beginning := v }
  else none

/-- Property setter for `delay`. -/
def delay_set (c : KarmaConfig) (v : Int) : Option KarmaConfig :=
  if 0 ≤ v ∧ v ≤ 10000 then some { c with delay := v } else none

/-- Property setter for `duration`. -/
def duration_set (c : KarmaConfig) (v : Int) : Option KarmaConfig :=
  if 10 ≤ v ∧ v ≤ 10000 then some { c with duration := v } else none

/-- Property setter for `divisions`. -/
def divisions_set (c : KarmaConfig) (v : Int) : Option KarmaConfig :=
  if 1 ≤ v ∧ v ≤ 100 then some { c with divisions := v } else none

/-- Property setter for `repetitions`. -/
def repetitions_set (c : KarmaConfig) (v : Int) : Option KarmaConfig :=
  if 0 ≤ v ∧ v ≤ 100 then some { c with repetitions := v } else none

/-- Property setter for `probability`. -/
def probability_set (c : KarmaConfig) (v : Int) : Option KarmaConfig :=
  if 1 ≤ v ∧ v ≤ 100 then some { c with probability := v } else none

/-- Property setter for `probability_per_division`. -/
def probability_per_division_set (c : KarmaConfig) (v : Int) :
    Option KarmaConfig :=
  if 1 ≤ v ∧ v ≤ 100 then some { c with probability_per_division := v }
  else none

/-! Concrete configurations and random sources used in the scenarios. -/

/-- A random source that always draws 1. -/
def constRand : RandS := fun _ => 1

/-- A random source that always draws 100. -/
def hundredRand : RandS := fun _ => 100

/-- The single-division scenario configuration (AtStart, no delay, 100 ms,
one division, no repetition, both probabilities 100). -/
def cfgSingle : KarmaConfig := ⟨0, 0, 100, 1, 0, 100, 100⟩

/-- The single-division configuration with one repetition. -/
def cfgRep1 : KarmaConfig := ⟨0, 0, 100, 1, 1, 100, 100⟩

/-- The single-division configuration with two repetitions (the spec's
repetition scenario). -/
def cfgRep2 : KarmaConfig := ⟨0, 0, 100, 1, 2, 100, 100⟩

/-- A two-division configuration over 100 ms. -/
def cfgTwoDiv : KarmaConfig := ⟨0, 0, 100, 2, 0, 100, 100⟩

/-- A two-division configuration over 10 ms. -/
def cfgGhost : KarmaConfig := ⟨0, 0, 10, 2, 0, 100, 100⟩

/-- Projection: the output level of a result. -/
def outputOf (p : KState × Nat) : Bool := p.1.output

/-- Projection: the trigger timestamp of a result. -/
def triggerOf (p : KState × Nat) : Option Nat := p.1.trigger_started_at

/-- Projection: the output-start timestamp of a result. -/
def outputStartedOf (p : KState × Nat) : Option Nat := p.1.output_started_at

/-- Projection: the division-start timestamp of a result. -/
def divisionStartedOf (p : KState × Nat) : Option Nat :=
  p.1.division_started_at

/-- Projection: the ghost division counter of a result. -/
def divisionOccOf (p : KState × Nat) : Nat := p.1.division_occurrences

/-! Helper lemmas shared by the claim theorems. -/

@[simp] lemma pyTruthy_none : pyTruthy none = false := rfl

@[simp] lemma pyTruthy_some (v : Nat) : pyTruthy (some v) = (v != 0) := rfl

lemma finalize_output (s : KState) : (finalize s).output = s.output := by
  unfold finalize; split_ifs <;> rfl

lemma finalize_previous (s : KState) :
    (finalize s).previous_output = s.output := by
  unfold finalize
  split_ifs with h
  · rfl
  · exact (not_ne_iff.mp h).symm

lemma finalize_trigger (s : KState) :
    (finalize s).trigger_started_at = s.trigger_started_at := by
  unfold finalize; split_ifs <;> rfl

lemma finalize_output_started (s : KState) :
    (finalize s).output_started_at = s.output_started_at := by
  unfold finalize; split_ifs <;> rfl

lemma finalize_output_ended (s : KState) :
    (finalize s).output_ended_at = s.output_ended_at := by
  unfold finalize; split_ifs <;> rfl

lemma finalize_division_started (s : KState) :
    (finalize s).division_started_at = s.division_started_at := by
  unfold finalize; split_ifs <;> rfl

lemma finalize_occurrences (s : KState) :
    (finalize s).occurrences = s.occurrences := by
  unfold finalize; split_ifs <;> rfl

lemma finalize_division_occurrences (s : KState) :
    (finalize s).division_occurrences = s.division_occurrences := by
  unfold finalize; split_ifs <;> rfl

lemma finalize_of_sync {s : KState} (h : s.previous_output = s.output) :
    finalize s = s := by
  unfold finalize
  split_ifs with h2
  · exact absurd h.symm h2
  · rfl

lemma finalize_finalize (s : KState) : finalize (finalize s) = finalize s :=
  finalize_of_sync ((finalize_previous s).trans (finalize_output s).symm)

lemma set_output_self {s : KState} (h : s.output = false) :
    { s with output := false } = s := by
  cases s; simp_all

lemma set_ended_self {s : KState} {n : Nat}
    (h : s.output_ended_at = some n) :
    { s with output_ended_at := some n } = s := by
  cases s; simp_all

/-! Claim theorems. -/

/-- C1: the claim states that no call to `tick` (`KarmaOutput.main`) can
raise an error, and in particular that the repeat-gap branch never evaluates
an elapsed-time computation on an unset (`None`) timestamp. The code violates
this: with `repetitions = 1` the first tick at which a run's duration has
elapsed takes the repeat branch with `_output_ended_at` still `None`
(the guard on line 192 is inverted) and evaluates
`time.ticks_diff(current_time, None)`, raising `TypeError`. This theorem
evaluates the embedded code at that failing input: arming at clock 1,
ticking at clocks 1 and 101 ends in the error (`none`). -/
theorem karma_C1_tick_crash :
    runOps cfgRep1 initState [KOp.start 1, KOp.tick 1, KOp.tick 101]
      constRand 0 = none := by
  rfl

/-- C2: the claim states that with `repetitions = 2` a single `start` yields
exactly three runs separated by two 100 ms gaps. The code instead raises
`TypeError` at the first tick at which the first run's duration has elapsed
(`time.ticks_diff(current_time, None)` on the unset repeat-gap marker), so no
gap and no second run ever occur. This theorem evaluates the embedded code at
the claim's scenario (arming at clock 1, ticks at 1 and 101). -/
theorem karma_C2_repetition_crash :
    runOps cfgRep2 initState [KOp.start 1, KOp.tick 1, KOp.tick 101]
      constRand 0 = none := by
  rfl

/-- C3 counterexample: for `divisions = 2` and `duration = 100` the division
slice computed by `_get_division_duration` is `100 / 5 = 20`, not the
claimed `durationMs / (divisions * 2) = 25`. -/
theorem karma_C3_counterexample :
    getDivisionDuration cfgTwoDiv ≠
      (cfgTwoDiv.duration : ℚ) / ((cfgTwoDiv.divisions : ℚ) * 2) := by
  rw [getDivisionDuration_eq]
  norm_num [cfgTwoDiv]

/-- C3 amended: for every validated configuration the division slice length
equals `durationMs / divisions` when `divisions = 1` and
`durationMs / (divisions * 2 + 1)` when `divisions > 1`. -/
theorem karma_C3_division_slice (c : KarmaConfig) (hc : validConfig c) :
    getDivisionDuration c =
      if c.divisions = 1 then (c.duration : ℚ) / (c.divisions : ℚ)
      else (c.duration : ℚ) / ((c.divisions : ℚ) * 2 + 1) := by
  rw [getDivisionDuration_eq]
  split_ifs with h
  · rw [h]; norm_num
  · rfl

/-- C3 witness: the amended slice formula evaluated on the concrete
single-division configuration. -/
theorem karma_C3_witness :
    getDivisionDuration cfgSingle =
      (cfgSingle.duration : ℚ) / (cfgSingle.divisions : ℚ) := by
  have h := karma_C3_division_slice cfgSingle
    (by unfold validConfig BEGIN_AT_START BEGIN_AT_END cfgSingle; norm_num)
  simpa using h

/-- C4 counterexample: in the claim's scenario the run is armed at clock
time 0, so `_trigger_started_at` is stored as `0`, which Python truthiness
(`if not self._trigger_started_at:`) reads as unset; the tick at clock 10
therefore outputs LOW, not the claimed HIGH. -/
theorem karma_C4_counterexample :
    Option.map outputOf
      (runOps cfgSingle initState [KOp.start 0, KOp.tick 10] constRand 0) ≠
      some true := by
  decide

/-- C4 amended: in the single-division scenario armed at a nonzero clock
reading (clock 1), the first tick past the delay outputs HIGH (tick at 11);
the tick at 61 still outputs HIGH, because for `divisions = 1` the division
slice equals the full duration so no LOW half occurs inside the run; and the
first tick at which 100 ms have elapsed since the output started (tick at
111) finishes the run: output LOW and the state back to Idle. -/
theorem karma_C4_single_division_run :
    Option.map outputOf
      (runOps cfgSingle initState [KOp.start 1, KOp.tick 11] constRand 0) =
      some true ∧
    Option.map outputOf
      (runOps cfgSingle initState [KOp.start 1, KOp.tick 11, KOp.tick 61]
        constRand 0) = some true ∧
    Option.map outputOf
      (runOps cfgSingle initState
        [KOp.start 1, KOp.tick 11, KOp.tick 61, KOp.tick 111]
        constRand 0) = some false ∧
    Option.map triggerOf
      (runOps cfgSingle initState
        [KOp.start 1, KOp.tick 11, KOp.tick 61, KOp.tick 111]
        constRand 0) = some none ∧
    Option.map outputStartedOf
      (runOps cfgSingle initState
        [KOp.start 1, KOp.tick 11, KOp.tick 61, KOp.tick 111]
        constRand 0) = some none := by
  refine ⟨by with_unfolding_all decide, by with_unfolding_all decide,
    by with_unfolding_all decide, by with_unfolding_all decide,
    by with_unfolding_all decide⟩

/-- C5 counterexample: `_reset` does not clear `_output_ended_at`, so from a
prior state in which that field is set it is still set after `reset()`,
contradicting the claim that every runtime field holds its Idle value. -/
theorem karma_C5_counterexample :
    (resetK { initState with output_ended_at := some 5 }).output_ended_at ≠
      none := by
  decide

/-- C5 amended: for every prior state, `reset()` forces the output LOW,
clears `occurrences`, `_trigger_started_at`, `_output_started_at` and
`_division_started_at` (and the spec-modelled division counter), but leaves
`_output_ended_at` and `_previous_output` unchanged. -/
theorem karma_C5_reset_state (s : KState) :
    (resetK s).output = false ∧
    (resetK s).occurrences = 0 ∧
    (resetK s).trigger_started_at = none ∧
    (resetK s).output_started_at = none ∧
    (resetK s).division_started_at = none ∧
    (resetK s).division_occurrences = 0 ∧
    (resetK s).output_ended_at = s.output_ended_at ∧
    (resetK s).previous_output = s.previous_output ∧
    (resetK s).cv_writes = s.cv_writes :=
  ⟨rfl, rfl, rfl, rfl, rfl, rfl, rfl, rfl, rfl⟩

/-- C10: for a shaper whose `beginning` parameter is `BEGIN_AT_START`,
`end()` leaves the runtime state (including the recorded CV writes)
unchanged and consumes no random draw; the configuration is immutable input
to the embedding and `end()` never touches it. A run triggered at the rising
edge is therefore never altered by the falling edge. -/
theorem karma_C10_end_noop (c : KarmaConfig) (s : KState) (now : Nat)
    (r : RandS) (i : Nat) (h : c.beginning = BEGIN_AT_START) :
    endK c s now r i = (s, i) := by
  unfold endK
  rw [h]
  simp [BEGIN_AT_START, BEGIN_AT_END]

/-- C10 witness: `end()` on the concrete AtStart configuration. -/
theorem karma_C10_witness :
    endK cfgSingle initState 5 constRand 0 = (initState, 0) :=
  karma_C10_end_noop cfgSingle initState 5 constRand 0 rfl

/-- C9: each parameter setter rejects exactly the values outside its
documented domain, and a rejection is atomic: `none` models the raised
exception, in which case the stored configuration object is untouched, and
a successful set changes only the one targeted field. Concretely, setting
`duration` to 9 raises while setting it to 10 succeeds and the getter (the
field read) then returns 10. -/
theorem karma_C9_setters :
    (∀ c v, (beginning_set c v = none ↔
        ¬ (v = BEGIN_AT_START ∨ v = BEGIN_AT_END)) ∧
      ∀ c1, beginning_set c v = some c1 → c1 = { c with beginning := v }) ∧
    (∀ c v, (delay_set c v = none ↔ ¬ (0 ≤ v ∧ v ≤ 10000)) ∧
      ∀ c1, delay_set c v = some c1 → c1 = { c with delay := v }) ∧
    (∀ c v, (duration_set c v = none ↔ ¬ (10 ≤ v ∧ v ≤ 10000)) ∧
      ∀ c1, duration_set c v = some c1 → c1 = { c with duration := v }) ∧
    (∀ c v, (divisions_set c v = none ↔ ¬ (1 ≤ v ∧ v ≤ 100)) ∧
      ∀ c1, divisions_set c v = some c1 → c1 = { c with divisions := v }) ∧
    (∀ c v, (repetitions_set c v = none ↔ ¬ (0 ≤ v ∧ v ≤ 100)) ∧
      ∀ c1, repetitions_set c v = some c1 →
        c1 = { c with repetitions := v }) ∧
    (∀ c v, (probability_set c v = none ↔ ¬ (1 ≤ v ∧ v ≤ 100)) ∧
      ∀ c1, probability_set c v = some c1 →
        c1 = { c with probability := v }) ∧
    (∀ c v, (probability_per_division_set c v = none ↔
        ¬ (1 ≤ v ∧ v ≤ 100)) ∧
      ∀ c1, probability_per_division_set c v = some c1 →
        c1 = { c with probability_per_division := v }) ∧
    (∀ c, duration_set c 9 = none) ∧
    (∀ c, duration_set c 10 = some { c with duration := 10 } ∧
      ∀ c1, duration_set c 10 = some c1 → c1.duration = 10) := by
  refine ⟨?_, ?_, ?_, ?_, ?_, ?_, ?_, ?_, ?_⟩
  · intro c v
    constructor
    · unfold beginning_set; split_ifs with h <;> simp [h]
    · intro c1 h1
      unfold beginning_set at h1
      split_ifs at h1
      exact (Option.some_injective _ h1).symm
  · intro c v
    constructor
    · unfold delay_set; split_ifs with h <;> simp [h]
    · intro c1 h1
      unfold delay_set at h1
      split_ifs at h1
      exact (Option.some_injective _ h1).symm
  · intro c v
    constructor
    · unfold duration_set; split_ifs with h <;> simp [h]
    · intro c1 h1
      unfold duration_set at h1
      split_ifs at h1
      exact (Option.some_injective _ h1).symm
  · intro c v
    constructor
    · unfold divisions_set; split_ifs with h <;> simp [h]
    · intro c1 h1
      unfold divisions_set at h1
      split_ifs at h1
      exact (Option.some_injective _ h1).symm
  · intro c v
    constructor
    · unfold repetitions_set; split_ifs with h <;> simp [h]
    · intro c1 h1
      unfold repetitions_set at h1
      split_ifs at h1
      exact (Option.some_injective _ h1).symm
  · intro c v
    constructor
    · unfold probability_set; split_ifs with h <;> simp [h]
    · intro c1 h1
      unfold probability_set at h1
      split_ifs at h1
      exact (Option.some_injective _ h1).symm
  · intro c v
    constructor
    · unfold probability_per_division_set; split_ifs with h <;> simp [h]
    · intro c1 h1
      unfold probability_per_division_set at h1
      split_ifs at h1
      exact (Option.some_injective _ h1).symm
  · intro c
    unfold duration_set
    norm_num
  · intro c
    constructor
    · unfold duration_set; norm_num
    · intro c1 h1
      unfold duration_set at h1
      norm_num at h1
      rw [← h1]

/-- C9 witness: the duration round-trip on the concrete configuration. -/
theorem karma_C9_witness :
    duration_set cfgSingle 9 = none ∧
    duration_set cfgSingle 10 = some { cfgSingle with duration := 10 } :=
  ⟨karma_C9_setters.2.2.2.2.2.2.2.1 cfgSingle,
    (karma_C9_setters.2.2.2.2.2.2.2.2 cfgSingle).1⟩

/-! Reachability invariant supporting C6: in every state reached without an
error, `occurrences` is 0 (the only increment sits on the path that raises)
and `_output_ended_at` is still unset. -/

/-- The inductive invariant for C6. -/
def occInv (s : KState) : Prop :=
  s.occurrences = 0 ∧ s.output_ended_at = none

lemma occInv_init : occInv initState := ⟨rfl, rfl⟩

lemma occInv_resetK {s : KState} (h : occInv s) : occInv (resetK s) :=
  ⟨rfl, h.2⟩

lemma occInv_startTrig {c : KarmaConfig} {s : KState} {now : Nat} {r : RandS}
    {i : Nat} (h : occInv s) : occInv (startTrig c s now r i).1 := by
  unfold startTrig
  split_ifs <;> exact ⟨h.1, h.2⟩

lemma occInv_finalize {s : KState} (h : occInv s) : occInv (finalize s) :=
  ⟨(finalize_occurrences s).trans h.1, (finalize_output_ended s).trans h.2⟩

lemma occInv_divisionK {c : KarmaConfig} {s : KState} {now : Nat} {r : RandS}
    {i : Nat} (h : occInv s) : occInv (divisionK c s now r i).1 := by
  unfold divisionK
  split_ifs <;> exact ⟨h.1, h.2⟩

lemma occInv_phase1K {c : KarmaConfig} {s : KState} {now : Nat} {r : RandS}
    {i : Nat} {s1 : KState} {i1 : Nat} (h : occInv s)
    (hp : phase1K c s now r i = some (s1, i1)) : occInv s1 := by
  unfold phase1K at hp
  split_ifs at hp with h1 h2 h3 h4
  · simp only [Option.some.injEq, Prod.mk.injEq] at hp
    exact hp.1 ▸ ⟨h.1, h.2⟩
  · rw [h.2] at h4
    simp at h4
  · rw [h.2] at hp
    exact absurd hp (by simp)
  · simp only [Option.some.injEq, Prod.mk.injEq] at hp
    exact hp.1 ▸ occInv_resetK h
  · simp only [Option.some.injEq, Prod.mk.injEq] at hp
    exact hp.1 ▸ ⟨h.1, h.2⟩

lemma occInv_mainK {c : KarmaConfig} {s : KState} {now : Nat} {r : RandS}
    {i : Nat} {s1 : KState} {i1 : Nat} (h : occInv s)
    (hm : mainK c s now r i = some (s1, i1)) : occInv s1 := by
  unfold mainK at hm
  split_ifs at hm
  · rcases hp : phase1K c s now r i with _ | p
    · rw [hp] at hm; exact absurd hm (by simp)
    · rw [hp] at hm
      simp only [Option.some.injEq, Prod.mk.injEq] at hm
      rcases hm with ⟨hs, _⟩
      exact hs ▸ occInv_finalize (occInv_divisionK (occInv_phase1K h hp))
  · simp only [Option.some.injEq, Prod.mk.injEq] at hm
    rcases hm with ⟨hs, _⟩
    exact hs ▸ occInv_finalize ⟨h.1, h.2⟩

lemma occInv_stepOp {c : KarmaConfig} {s : KState} {op : KOp} {r : RandS}
    {i : Nat} {s1 : KState} {i1 : Nat} (h : occInv s)
    (hs : stepOp c s op r i = some (s1, i1)) : occInv s1 := by
  cases op with
  | start n =>
    simp only [stepOp, Option.some.injEq] at hs
    have h1 : s1 = (startK c s n r i).1 := by rw [hs]
    rw [h1]
    unfold startK
    split_ifs
    · exact occInv_startTrig (occInv_resetK h)
    · exact occInv_resetK h
  | inputEnd n =>
    simp only [stepOp, Option.some.injEq] at hs
    have h1 : s1 = (endK c s n r i).1 := by rw [hs]
    rw [h1]
    unfold endK
    split_ifs
    · exact occInv_startTrig h
    · exact h
  | manualStart n =>
    simp only [stepOp, Option.some.injEq] at hs
    have h1 : s1 = (manualStartK c s n r i).1 := by rw [hs]
    rw [h1]
    exact occInv_startTrig (occInv_resetK h)
  | tick n => exact occInv_mainK h hs

lemma occInv_runOps {c : KarmaConfig} {r : RandS} :
    ∀ (ops : List KOp) (s : KState) (i : Nat) (s1 : KState) (i1 : Nat),
      occInv s → runOps c s ops r i = some (s1, i1) → occInv s1 := by
  intro ops
  induction ops with
  | nil =>
    intro s i s1 i1 h hr
    simp only [runOps, Option.some.injEq, Prod.mk.injEq] at hr
    exact hr.1 ▸ h
  | cons op rest ih =>
    intro s i s1 i1 h hr
    unfold runOps at hr
    rcases hs : stepOp c s op r i with _ | p
    · rw [hs] at hr; exact absurd hr (by simp)
    · rw [hs] at hr
      exact ih p.1 p.2 s1 i1 (occInv_stepOp h (by rw [hs])) hr

/-- C6 counterexample: the claim's `divisionOccurrences ≤ divisions`
invariant (spec-modelled ghost counter, see `KState`) fails as stated: with
`divisions = 2` and `duration = 10`, ticks spaced about `2^29` ms apart make
the wraparound-safe elapsed computation go negative, so the run never ends
while started divisions keep completing; after the trace below the counter
is 3, exceeding `divisions = 2`. -/
theorem karma_C6_counterexample :
    Option.map divisionOccOf
      (runOps cfgGhost initState
        [KOp.start 1, KOp.tick 1, KOp.tick 5, KOp.tick 6, KOp.tick 10,
          KOp.tick (2 ^ 29 + 5), KOp.tick (2 ^ 29 + 9)] constRand 0) =
      some 3 ∧
    ¬ ((3 : Int) ≤ cfgGhost.divisions) := by
  refine ⟨by with_unfolding_all decide, by decide⟩

/-- C6 amended: for every configuration with `repetitions ≥ 0` (all
validated ones) and every sequence of operations from the initial state that
does not raise, `occurrences ≤ repetitions` holds at every observation point
(each prefix of the sequence ends in such a state; `occurrences` in fact
remains 0, since the only increment lies on the raising repeat path). The
`divisionOccurrences ≤ divisions` half of the claim is dropped: the code has
no such counter, and the spec-modelled ghost counter violates the bound
under tick gaps of about `2^29` ms (see the counterexample). -/
theorem karma_C6_occurrences_bound (c : KarmaConfig) (ops : List KOp)
    (r : RandS) (s : KState) (j : Nat) (hrep : 0 ≤ c.repetitions)
    (h : runOps c initState ops r 0 = some (s, j)) :
    (s.occurrences : Int) ≤ c.repetitions := by
  have hinv := occInv_runOps ops initState 0 s j occInv_init h
  rw [hinv.1]
  exact_mod_cast hrep

/-- C6 witness: the occurrences bound instantiated on a concrete
two-operation run. -/
theorem karma_C6_witness :
    ((initState.occurrences : Int) ≤ cfgSingle.repetitions) :=
  karma_C6_occurrences_bound cfgSingle [] constRand initState 0
    (by decide) rfl

/-! Determinism at the probability boundary, supporting C8. -/

lemma can_output_100 {v : Nat} (hv : v ≤ 100) : can_output 100 v = true := by
  unfold can_output
  simpa using hv

lemma startTrig_rand {c : KarmaConfig} {s : KState} {now i : Nat}
    {r1 r2 : RandS} (h100 : c.probability = 100) (hr1 : rangedRand r1)
    (hr2 : rangedRand r2) :
    startTrig c s now r1 i = startTrig c s now r2 i := by
  unfold startTrig
  rw [h100, can_output_100 (hr1 i).2, can_output_100 (hr2 i).2]

lemma divisionK_rand {c : KarmaConfig} {s : KState} {now i : Nat}
    {r1 r2 : RandS} (h100 : c.probability_per_division = 100)
    (hr1 : rangedRand r1) (hr2 : rangedRand r2) :
    divisionK c s now r1 i = divisionK c s now r2 i := by
  unfold divisionK
  rw [h100, can_output_100 (hr1 i).2, can_output_100 (hr2 i).2]

lemma rangedRand_const : rangedRand constRand := by
  unfold rangedRand constRand
  intro n
  omega

lemma rangedRand_hundred : rangedRand hundredRand := by
  unfold rangedRand hundredRand
  intro n
  omega

lemma phase1K_rand {c : KarmaConfig} {s : KState} {now i : Nat}
    {r1 r2 : RandS} (h100 : c.probability = 100) (hr1 : rangedRand r1)
    (hr2 : rangedRand r2) :
    phase1K c s now r1 i = phase1K c s now r2 i := by
  unfold phase1K
  split_ifs <;> try rfl
  all_goals rcases s.output_ended_at with _ | e
  all_goals try rfl
  all_goals rw [startTrig_rand h100 hr1 hr2]

lemma mainK_rand {c : KarmaConfig} {s : KState} {now i : Nat}
    {r1 r2 : RandS} (h1 : c.probability = 100)
    (h2 : c.probability_per_division = 100) (hr1 : rangedRand r1)
    (hr2 : rangedRand r2) :
    mainK c s now r1 i = mainK c s now r2 i := by
  unfold mainK
  rw [phase1K_rand h1 hr1 hr2]
  rcases phase1K c s now r2 i with _ | p
  · rfl
  · simp only
    rw [divisionK_rand h2 hr1 hr2]

lemma stepOp_rand {c : KarmaConfig} {s : KState} {op : KOp} {i : Nat}
    {r1 r2 : RandS} (h1 : c.probability = 100)
    (h2 : c.probability_per_division = 100) (hr1 : rangedRand r1)
    (hr2 : rangedRand r2) :
    stepOp c s op r1 i = stepOp c s op r2 i := by
  cases op with
  | start n =>
    simp only [stepOp]
    unfold startK
    split_ifs
    · rw [startTrig_rand h1 hr1 hr2]
    · rfl
  | inputEnd n =>
    simp only [stepOp]
    unfold endK
    split_ifs
    · rw [startTrig_rand h1 hr1 hr2]
    · rfl
  | manualStart n =>
    simp only [stepOp]
    unfold manualStartK
    rw [startTrig_rand h1 hr1 hr2]
  | tick n =>
    simp only [stepOp]
    exact mainK_rand h1 h2 hr1 hr2

/-- C8 counterexample: with both probabilities 100 (configuration
`cfgSingle`) an input edge at clock reading 0 arms the run — the probability
gate passes and `_start` records `_trigger_started_at = 0` — yet Python
truthiness (`if not self._trigger_started_at:`) then reads the run as
unarmed: the output is LOW at every tick across the whole 100 ms run window
(ticks at 10, 60 and 110) and the state is still the silent armed-at-0 state
afterwards, so this armed run never produces a HIGH division, refuting the
claim as stated. -/
theorem karma_C8_counterexample :
    Option.map triggerOf
      (runOps cfgSingle initState [KOp.start 0] constRand 0) =
      some (some 0) ∧
    Option.map outputOf
      (runOps cfgSingle initState [KOp.start 0, KOp.tick 10] constRand 0) =
      some false ∧
    Option.map outputOf
      (runOps cfgSingle initState [KOp.start 0, KOp.tick 10, KOp.tick 60]
        constRand 0) = some false ∧
    Option.map outputOf
      (runOps cfgSingle initState
        [KOp.start 0, KOp.tick 10, KOp.tick 60, KOp.tick 110]
        constRand 0) = some false ∧
    Option.map triggerOf
      (runOps cfgSingle initState
        [KOp.start 0, KOp.tick 10, KOp.tick 60, KOp.tick 110]
        constRand 0) = some (some 0) := by
  refine ⟨by decide, by decide, by decide, by decide, by decide⟩

/-- C8 amended: at the probability boundary (`probabilityPct = 100` and
`divisionProbabilityPct = 100`) the state machine is deterministic, and
every armed run whose recorded trigger timestamp is nonzero produces a HIGH
division; a run armed at clock reading 0 stays LOW forever. First conjunct:
any two behaviors of the random source (each ranged in `[1,100]`, as
`randint(1, 100)` is) drive any operation sequence from any state to
identical results, so the output sequence does not depend on the draws.
Second conjunct: from an armed state with a nonzero trigger timestamp
(output not yet started, no repeat gap, no division in flight), the first
tick at which the delay has elapsed — taken at a nonzero clock reading —
sets the output HIGH. Third conjunct: when the recorded trigger timestamp is
the Python-falsy 0, every tick reads the run as unarmed and forces the
output LOW, changing nothing else and drawing no randomness — so that armed
run never reaches a HIGH division (see the counterexample). -/
theorem karma_C8_prob100 (c : KarmaConfig) (h1 : c.probability = 100)
    (h2 : c.probability_per_division = 100) :
    (∀ (s : KState) (ops : List KOp) (r1 r2 : RandS) (i : Nat),
      rangedRand r1 → rangedRand r2 →
      runOps c s ops r1 i = runOps c s ops r2 i) ∧
    (∀ (s : KState) (now t : Nat) (r : RandS) (i : Nat), rangedRand r →
      s.trigger_started_at = some t → t ≠ 0 → now ≠ 0 →
      s.output_started_at = none → s.output_ended_at = none →
      s.division_started_at = none → c.delay ≤ ticksDiff now t →
      Option.map outputOf (mainK c s now r i) = some true) ∧
    (∀ (s : KState) (now : Nat) (r : RandS) (i : Nat),
      s.trigger_started_at = some 0 →
      mainK c s now r i = some (finalize { s with output := false }, i)) := by
  refine ⟨?_, ?_, ?_⟩
  · intro s ops
    induction ops generalizing s with
    | nil => intro r1 r2 i hr1 hr2; rfl
    | cons op rest ih =>
      intro r1 r2 i hr1 hr2
      unfold runOps
      rw [stepOp_rand h1 h2 hr1 hr2]
      rcases stepOp c s op r2 i with _ | p
      · rfl
      · exact ih p.1 r1 r2 p.2 hr1 hr2
  · intro s now t r i hr ht ht0 hn0 ho he hd hdel
    unfold mainK
    rw [ht]
    simp only [pyTruthy_some, bne_iff_ne, ne_eq, ht0, not_false_eq_true,
      if_true]
    have hp : phase1K c s now r i =
        some ({ s with output_started_at := some now }, i) := by
      unfold phase1K
      rw [ho, ht]
      simp [hdel]
    rw [hp]
    have hdv : divisionK c { s with output_started_at := some now } now r i =
        ({ s with output_started_at := some now,
                  division_started_at := some now, output := true }, i + 1) := by
      unfold divisionK
      rw [h2]
      simp only [pyTruthy_some, bne_iff_ne, ne_eq, hn0, not_false_eq_true,
        if_true]
      rw [he, hd]
      simp [can_output_100 (hr i).2]
    dsimp only
    rw [hdv]
    simp [outputOf, finalize_output]
  · intro s now r i h0
    unfold mainK
    rw [h0]
    simp

/-! Fixpoint lemmas supporting C7: conditions under which a tick leaves the
state unchanged. -/

lemma getDivisionDuration_pos {c : KarmaConfig} (hdur : 10 ≤ c.duration)
    (hdiv : 1 ≤ c.divisions) : 0 < getDivisionDuration c := by
  rw [getDivisionDuration_eq]
  have hq : (0 : ℚ) < (c.duration : ℚ) := by
    have : (0 : Int) < c.duration := by omega
    exact_mod_cast this
  split_ifs
  · exact hq
  · apply div_pos hq
    have : (1 : ℚ) ≤ (c.divisions : ℚ) := by exact_mod_cast hdiv
    linarith

lemma mainK_trigger_falsy (c : KarmaConfig) {s : KState} (now : Nat)
    (r : RandS) (i : Nat) (h : pyTruthy s.trigger_started_at = false) :
    mainK c s now r i = some (finalize { s with output := false }, i) := by
  unfold mainK
  rw [h]
  simp

lemma mainK_self_of_idle {c : KarmaConfig} {s : KState} {now : Nat}
    {r : RandS} {i : Nat} (htr : pyTruthy s.trigger_started_at = false)
    (hout : s.output = false) (hsync : s.previous_output = false) :
    mainK c s now r i = some (s, i) := by
  rw [mainK_trigger_falsy c now r i htr, set_output_self hout,
    finalize_of_sync (hsync.trans hout.symm)]

lemma phase1K_pass {c : KarmaConfig} {s : KState} {now : Nat} {r : RandS}
    {i : Nat}
    (hA : ¬ (¬ pyTruthy s.output_started_at = true ∧
      c.delay ≤ ticksDiff now (s.trigger_started_at.getD 0)))
    (hB : ¬ (pyTruthy s.output_started_at = true ∧
      c.duration ≤ ticksDiff now (s.output_started_at.getD 0))) :
    phase1K c s now r i = some (s, i) := by
  unfold phase1K
  rw [if_neg hA, if_neg hB]

lemma phase1K_repeat_stable {c : KarmaConfig} {s : KState} {now : Nat}
    {r : RandS} {i : Nat}
    (hA : ¬ (¬ pyTruthy s.output_started_at = true ∧
      c.delay ≤ ticksDiff now (s.trigger_started_at.getD 0)))
    (hB : pyTruthy s.output_started_at = true ∧
      c.duration ≤ ticksDiff now (s.output_started_at.getD 0))
    (hC : 0 < c.repetitions ∧ (s.occurrences : Int) < c.repetitions)
    (hD : pyTruthy s.output_ended_at = true)
    (hE : s.output_ended_at = some now) :
    phase1K c s now r i = some (s, i) := by
  unfold phase1K
  rw [if_neg hA, if_pos hB, if_pos hC, if_pos hD, set_ended_self hE]

lemma divisionK_skip {c : KarmaConfig} {s : KState} {now : Nat} {r : RandS}
    {i : Nat}
    (h : ¬ (pyTruthy s.output_started_at = true ∧
      ¬ pyTruthy s.output_ended_at = true)) :
    divisionK c s now r i = (s, i) := by
  unfold divisionK
  rw [if_neg h]

lemma divisionK_low_stable {c : KarmaConfig} {s : KState} {now : Nat}
    {r : RandS} {i : Nat}
    (h : pyTruthy s.output_started_at = true ∧
      ¬ pyTruthy s.output_ended_at = true)
    (hdv : ¬ ¬ pyTruthy s.division_started_at = true)
    (hlow : getDivisionDuration c ≤
        ((ticksDiff now (s.division_started_at.getD 0) : Int) : ℚ) ∧
      ((ticksDiff now (s.division_started_at.getD 0) : Int) : ℚ) <
        getDivisionDuration c * 2)
    (hout : s.output = false) :
    divisionK c s now r i = (s, i) := by
  unfold divisionK
  rw [if_pos h, if_neg hdv, if_pos hlow, set_output_self hout]

lemma divisionK_pass {c : KarmaConfig} {s : KState} {now : Nat} {r : RandS}
    {i : Nat}
    (h : pyTruthy s.output_started_at = true ∧
      ¬ pyTruthy s.output_ended_at = true)
    (hdv : ¬ ¬ pyTruthy s.division_started_at = true)
    (h1 : ¬ (getDivisionDuration c ≤
        ((ticksDiff now (s.division_started_at.getD 0) : Int) : ℚ) ∧
      ((ticksDiff now (s.division_started_at.getD 0) : Int) : ℚ) <
        getDivisionDuration c * 2))
    (h2 : ¬ (getDivisionDuration c * 2 ≤
        ((ticksDiff now (s.division_started_at.getD 0) : Int) : ℚ))) :
    divisionK c s now r i = (s, i) := by
  unfold divisionK
  rw [if_pos h, if_neg hdv, if_neg h1, if_neg h2]

lemma mainK_self_of_stable {c : KarmaConfig} {s : KState} {now : Nat}
    {r : RandS} {i : Nat} (htr : pyTruthy s.trigger_started_at = true)
    (hp : phase1K c s now r i = some (s, i))
    (hd : divisionK c s now r i = (s, i))
    (hsync : s.previous_output = s.output) :
    mainK c s now r i = some (s, i) := by
  unfold mainK
  rw [if_pos htr, hp]
  dsimp only
  rw [hd, finalize_of_sync hsync]

lemma ticksDiff_self (a : Nat) : ticksDiff a a = 0 := by
  unfold ticksDiff TICKS_HALF TICKS_PERIOD
  norm_num

lemma mainK_self_active {c : KarmaConfig} {x : KState} {now : Nat}
    {r : RandS} {j : Nat} (htr : pyTruthy x.trigger_started_at = true)
    (hostate : pyTruthy x.output_started_at = true)
    (hBneg : ¬ c.duration ≤ ticksDiff now (x.output_started_at.getD 0))
    (hdstate : divisionK c x now r j = (x, j))
    (hsync : x.previous_output = x.output) :
    mainK c x now r j = some (x, j) :=
  mainK_self_of_stable htr
    (phase1K_pass (fun h => h.1 hostate) (fun h => hBneg h.2)) hdstate hsync

lemma divisionK_fresh_pass {c : KarmaConfig} {x : KState} {now : Nat}
    {r : RandS} {j : Nat}
    (hcnd : pyTruthy x.output_started_at = true ∧
      ¬ pyTruthy x.output_ended_at = true)
    (hdvt : x.division_started_at = some now) (hn0 : now ≠ 0)
    (hdd : 0 < getDivisionDuration c) :
    divisionK c x now r j = (x, j) := by
  have h0 : ((ticksDiff now (x.division_started_at.getD 0) : Int) : ℚ) = 0 := by
    rw [hdvt]
    simp [ticksDiff_self]
  apply divisionK_pass hcnd
  · intro hcon
    apply hcon
    rw [hdvt]
    simp [hn0]
  · rw [h0]
    intro hcon
    linarith [hcon.1]
  · rw [h0]
    intro hcon
    linarith

lemma divisionK_mid_pass {c : KarmaConfig} {x : KState} {now d : Nat}
    {r : RandS} {j : Nat}
    (hcnd : pyTruthy x.output_started_at = true ∧
      ¬ pyTruthy x.output_ended_at = true)
    (hdvt : x.division_started_at = some d) (hd0 : d ≠ 0)
    (hge : ¬ getDivisionDuration c ≤ ((ticksDiff now d : Int) : ℚ))
    (hlt : ((ticksDiff now d : Int) : ℚ) < getDivisionDuration c * 2) :
    divisionK c x now r j = (x, j) := by
  apply divisionK_pass hcnd
  · intro hcon
    apply hcon
    rw [hdvt]
    simp [hd0]
  · rw [hdvt]
    intro hcon
    exact hge (by simpa using hcon.1)
  · rw [hdvt]
    intro hcon
    have h2 : getDivisionDuration c * 2 ≤ ((ticksDiff now d : Int) : ℚ) := by
      simpa using hcon
    linarith

lemma divisionK_draw {c : KarmaConfig} {x : KState} {now : Nat} {r : RandS}
    {j : Nat}
    (hcnd : pyTruthy x.output_started_at = true ∧
      ¬ pyTruthy x.output_ended_at = true)
    (hdvn : x.division_started_at = none) :
    divisionK c x now r j =
      (if can_output c.probability_per_division (r j) then
        ({ x with division_started_at := some now, output := true }, j + 1)
      else ({ x with division_started_at := some now }, j + 1)) := by
  unfold divisionK
  rw [if_pos hcnd, if_pos (by rw [hdvn]; simp)]

lemma divisionK_low {c : KarmaConfig} {x : KState} {now d : Nat} {r : RandS}
    {j : Nat}
    (hcnd : pyTruthy x.output_started_at = true ∧
      ¬ pyTruthy x.output_ended_at = true)
    (hdvt : x.division_started_at = some d) (hd0 : d ≠ 0)
    (hge : getDivisionDuration c ≤ ((ticksDiff now d : Int) : ℚ))
    (hlt : ((ticksDiff now d : Int) : ℚ) < getDivisionDuration c * 2) :
    divisionK c x now r j = ({ x with output := false }, j) := by
  unfold divisionK
  rw [if_pos hcnd, if_neg (by rw [hdvt]; simp [hd0]),
    if_pos (by rw [hdvt]; exact ⟨by simpa using hge, by simpa using hlt⟩)]

/-- C8 witness: determinism and the guaranteed HIGH division evaluated on a
concrete configuration, armed state and pair of random sources. -/
theorem karma_C8_witness :
    runOps cfgSingle initState [KOp.start 1, KOp.tick 1] constRand 0 =
      runOps cfgSingle initState [KOp.start 1, KOp.tick 1] hundredRand 0 ∧
    Option.map outputOf
      (mainK cfgSingle { initState with trigger_started_at := some 1 } 1
        constRand 0) = some true ∧
    mainK cfgSingle { initState with trigger_started_at := some 0 } 10
        constRand 0 =
      some (finalize
        { initState with trigger_started_at := some 0, output := false }, 0) := by
  have h := karma_C8_prob100 cfgSingle rfl rfl
  exact ⟨h.1 initState [KOp.start 1, KOp.tick 1] constRand hundredRand 0
      rangedRand_const rangedRand_hundred,
    h.2.1 { initState with trigger_started_at := some 1 } 1 1 constRand 0
      rangedRand_const rfl (by decide) (by decide) rfl rfl rfl (by decide),
    h.2.2 { initState with trigger_started_at := some 0 } 10 constRand 0 rfl⟩

/-- C7 amended: a second call to `tick` with the identical clock reading
leaves the output, the whole internal state and the random-source position
unchanged, provided that: the configuration respects the validated ranges
(`duration ≥ 10`, `divisions ≥ 1`); the repeated clock reading is nonzero
(a timestamp stored at clock reading 0 reads as unset under Python
truthiness); the stored repeat-gap and division timestamps are not the
truthiness-falsy `0`; and the first call does not complete a division slice
(elapsed time since the started division below `2 * divisionDuration`) — if
it does, the second call legitimately begins the next division, drawing
randomness and possibly raising the output, as the counterexample shows. -/
theorem karma_C7_second_tick (c : KarmaConfig) (s : KState) (now : Nat)
    (r : RandS) (i : Nat) (s1 : KState) (i1 : Nat)
    (hdur : 10 ≤ c.duration) (hdiv : 1 ≤ c.divisions) (hnow : now ≠ 0)
    (hes : s.output_ended_at ≠ some 0)
    (hds : s.division_started_at ≠ some 0)
    (hcomp : ∀ d, s.division_started_at = some d →
      ((ticksDiff now d : Int) : ℚ) < getDivisionDuration c * 2)
    (h1 : mainK c s now r i = some (s1, i1)) :
    mainK c s1 now r i1 = some (s1, i1) := by
  have hno : (now != 0) = true := by simpa using hnow
  have hdd := getDivisionDuration_pos hdur hdiv
  by_cases hb : pyTruthy s.trigger_started_at = true
  case neg =>
    have hb' : pyTruthy s.trigger_started_at = false := by
      simpa using hb
    rw [mainK_trigger_falsy c now r i hb'] at h1
    simp only [Option.some.injEq, Prod.mk.injEq] at h1
    obtain ⟨h1s, h1i⟩ := h1
    subst h1s
    subst h1i
    apply mainK_self_of_idle
    · rw [finalize_trigger]
      exact hb'
    · rw [finalize_output]
    · rw [finalize_previous]
  case pos =>
    rcases htr : s.trigger_started_at with _ | t
    · rw [htr] at hb
      simp at hb
    have ht0 : t ≠ 0 := by
      rw [htr] at hb
      simpa using hb
    unfold mainK at h1
    rw [if_pos hb] at h1
    rcases hp : phase1K c s now r i with _ | p2
    · rw [hp] at h1
      simp at h1
    obtain ⟨s2, i2⟩ := p2
    rw [hp] at h1
    dsimp only at h1
    unfold phase1K at hp
    split_ifs at hp with hA hB hC hD
    · -- G1: output just started at clock reading now
      simp only [Option.some.injEq, Prod.mk.injEq] at hp
      obtain ⟨hs2, hi2⟩ := hp
      subst hs2
      subst hi2
      rcases hoe : s.output_ended_at with _ | e
      · -- no repeat gap pending: the division block runs
        have hcnd2 : pyTruthy ({ s with output_started_at := some now } :
              KState).output_started_at = true ∧
            ¬ pyTruthy ({ s with output_started_at := some now } :
              KState).output_ended_at = true := by
          constructor
          · simp [hno]
          · show ¬ pyTruthy s.output_ended_at = true
            rw [hoe]
            simp
        rcases hdvs : s.division_started_at with _ | d
        · -- a fresh division starts and draws
          have hdvx : ({ s with output_started_at := some now } :
              KState).division_started_at = none := hdvs
          rw [divisionK_draw hcnd2 hdvx] at h1
          by_cases hdraw : can_output c.probability_per_division (r i) = true
          · rw [if_pos hdraw] at h1
            simp only [Option.some.injEq, Prod.mk.injEq] at h1
            obtain ⟨h1s, h1i⟩ := h1
            subst h1s
            subst h1i
            apply mainK_self_active
            · rw [finalize_trigger]
              exact hb
            · rw [finalize_output_started]
              simp [hno]
            · rw [finalize_output_started]
              have h3 : ticksDiff now
                  (({ s with output_started_at := some now, division_started_at := some now, output := true } :
                    KState).output_started_at.getD 0) = 0 := ticksDiff_self now
              rw [h3]
              omega
            · apply divisionK_fresh_pass
              · constructor
                · rw [finalize_output_started]
                  simp [hno]
                · rw [finalize_output_ended]
                  show ¬ pyTruthy s.output_ended_at = true
                  rw [hoe]
                  simp
              · rw [finalize_division_started]
              · exact hnow
              · exact hdd
            · rw [finalize_previous, finalize_output]
          · rw [if_neg hdraw] at h1
            simp only [Option.some.injEq, Prod.mk.injEq] at h1
            obtain ⟨h1s, h1i⟩ := h1
            subst h1s
            subst h1i
            apply mainK_self_active
            · rw [finalize_trigger]
              exact hb
            · rw [finalize_output_started]
              simp [hno]
            · rw [finalize_output_started]
              have h3 : ticksDiff now
                  (({ s with output_started_at := some now, division_started_at := some now } :
                    KState).output_started_at.getD 0) = 0 := ticksDiff_self now
              rw [h3]
              omega
            · apply divisionK_fresh_pass
              · constructor
                · rw [finalize_output_started]
                  simp [hno]
                · rw [finalize_output_ended]
                  show ¬ pyTruthy s.output_ended_at = true
                  rw [hoe]
                  simp
              · rw [finalize_division_started]
              · exact hnow
              · exact hdd
            · rw [finalize_previous, finalize_output]
        · -- a division was already in flight
          have hd0 : d ≠ 0 := fun h0 => hds (by rw [hdvs, h0])
          have hrt := hcomp d hdvs
          have hdvx : ({ s with output_started_at := some now } :
              KState).division_started_at = some d := hdvs
          by_cases hge : getDivisionDuration c ≤ ((ticksDiff now d : Int) : ℚ)
          · rw [divisionK_low hcnd2 hdvx hd0 hge hrt] at h1
            simp only [Option.some.injEq, Prod.mk.injEq] at h1
            obtain ⟨h1s, h1i⟩ := h1
            subst h1s
            subst h1i
            apply mainK_self_of_stable
            · rw [finalize_trigger]
              exact hb
            · apply phase1K_pass
              · intro hcon
                exact hcon.1 (by rw [finalize_output_started]; simp [hno])
              · intro hcon
                have h2 := hcon.2
                rw [finalize_output_started] at h2
                have h3 : c.duration ≤ ticksDiff now now := h2
                rw [ticksDiff_self] at h3
                omega
            · apply divisionK_low_stable
              · constructor
                · rw [finalize_output_started]
                  simp [hno]
                · rw [finalize_output_ended]
                  show ¬ pyTruthy s.output_ended_at = true
                  rw [hoe]
                  simp
              · intro hcon
                apply hcon
                rw [finalize_division_started]
                show pyTruthy s.division_started_at = true
                rw [hdvs]
                simp [hd0]
              · have hdvy : (finalize ({ s with output_started_at := some now, output := false } :
                    KState)).division_started_at = some d := by
                  rw [finalize_division_started]
                  exact hdvx
                rw [hdvy]
                exact ⟨by simpa using hge, by simpa using hrt⟩
              · rw [finalize_output]
            · rw [finalize_previous, finalize_output]
          · rw [divisionK_mid_pass hcnd2 hdvx hd0 hge hrt] at h1
            simp only [Option.some.injEq, Prod.mk.injEq] at h1
            obtain ⟨h1s, h1i⟩ := h1
            subst h1s
            subst h1i
            apply mainK_self_active
            · rw [finalize_trigger]
              exact hb
            · rw [finalize_output_started]
              simp [hno]
            · rw [finalize_output_started]
              have h3 : ticksDiff now
                  (({ s with output_started_at := some now } :
                    KState).output_started_at.getD 0) = 0 := ticksDiff_self now
              rw [h3]
              omega
            · apply divisionK_mid_pass (d := d)
              · constructor
                · rw [finalize_output_started]
                  simp [hno]
                · rw [finalize_output_ended]
                  show ¬ pyTruthy s.output_ended_at = true
                  rw [hoe]
                  simp
              · rw [finalize_division_started]
                exact hdvx
              · exact hd0
              · exact hge
              · exact hrt
            · rw [finalize_previous, finalize_output]
      · -- a repeat-gap marker is set: the division block is skipped
        have he0 : e ≠ 0 := fun h0 => hes (by rw [hoe, h0])
        have hskip : divisionK c ({ s with output_started_at := some now } :
            KState) now r i = ({ s with output_started_at := some now }, i) :=
          divisionK_skip (fun hcc => hcc.2 (by
            show pyTruthy s.output_ended_at = true
            rw [hoe]
            simp [he0]))
        rw [hskip] at h1
        simp only [Option.some.injEq, Prod.mk.injEq] at h1
        obtain ⟨h1s, h1i⟩ := h1
        subst h1s
        subst h1i
        apply mainK_self_active
        · rw [finalize_trigger]
          exact hb
        · rw [finalize_output_started]
          simp [hno]
        · rw [finalize_output_started]
          have h3 : ticksDiff now
              (({ s with output_started_at := some now } :
                KState).output_started_at.getD 0) = 0 := ticksDiff_self now
          rw [h3]
          omega
        · apply divisionK_skip
          intro hcc
          apply hcc.2
          rw [finalize_output_ended]
          show pyTruthy s.output_ended_at = true
          rw [hoe]
          simp [he0]
        · rw [finalize_previous, finalize_output]
    · -- G2: the repeat-gap marker is refreshed to now
      simp only [Option.some.injEq, Prod.mk.injEq] at hp
      obtain ⟨hs2, hi2⟩ := hp
      subst hs2
      subst hi2
      have hskip : divisionK c ({ s with output_ended_at := some now } :
          KState) now r i = ({ s with output_ended_at := some now }, i) :=
        divisionK_skip (fun hcc => hcc.2 (by simp [hno]))
      rw [hskip] at h1
      simp only [Option.some.injEq, Prod.mk.injEq] at h1
      obtain ⟨h1s, h1i⟩ := h1
      subst h1s
      subst h1i
      apply mainK_self_of_stable
      · rw [finalize_trigger]
        exact hb
      · apply phase1K_repeat_stable
        · intro hcon
          apply hcon.1
          rw [finalize_output_started]
          exact hB.1
        · constructor
          · rw [finalize_output_started]
            exact hB.1
          · rw [finalize_output_started]
            exact hB.2
        · constructor
          · exact hC.1
          · rw [finalize_occurrences]
            exact hC.2
        · rw [finalize_output_ended]
          simp [hno]
        · rw [finalize_output_ended]
      · apply divisionK_skip
        intro hcc
        apply hcc.2
        rw [finalize_output_ended]
        simp [hno]
      · rw [finalize_previous, finalize_output]
    · -- G3: impossible, the code raises TypeError here
      rcases hoe : s.output_ended_at with _ | e
      · rw [hoe] at hp
        simp at hp
      · rw [hoe] at hD
        simp only [pyTruthy_some] at hD
        have he0 : e = 0 := by simpa using hD
        exact absurd (by rw [hoe, he0]) hes
    · -- G4: the run finished and the state was reset
      simp only [Option.some.injEq, Prod.mk.injEq] at hp
      obtain ⟨hs2, hi2⟩ := hp
      subst hs2
      subst hi2
      have hskip : divisionK c (resetK s) now r i = (resetK s, i) :=
        divisionK_skip (fun hcc => by
          have h0 : pyTruthy (none : Option Nat) = true := hcc.1
          simp at h0)
      rw [hskip] at h1
      simp only [Option.some.injEq, Prod.mk.injEq] at h1
      obtain ⟨h1s, h1i⟩ := h1
      subst h1s
      subst h1i
      apply mainK_self_of_idle
      · rw [finalize_trigger]
        rfl
      · rw [finalize_output]
        rfl
      · rw [finalize_previous]
        rfl
    · -- G5: phase 1 passed through unchanged
      simp only [Option.some.injEq, Prod.mk.injEq] at hp
      obtain ⟨hs2, hi2⟩ := hp
      subst hs2
      subst hi2
      by_cases hcnd : pyTruthy s.output_started_at = true ∧
          ¬ pyTruthy s.output_ended_at = true
      · have hBneg : ¬ c.duration ≤
            ticksDiff now (s.output_started_at.getD 0) :=
          fun hle => hB ⟨hcnd.1, hle⟩
        rcases hdvs : s.division_started_at with _ | d
        · rw [divisionK_draw hcnd hdvs] at h1
          by_cases hdraw : can_output c.probability_per_division (r i) = true
          · rw [if_pos hdraw] at h1
            simp only [Option.some.injEq, Prod.mk.injEq] at h1
            obtain ⟨h1s, h1i⟩ := h1
            subst h1s
            subst h1i
            apply mainK_self_active
            · rw [finalize_trigger]
              exact hb
            · rw [finalize_output_started]
              exact hcnd.1
            · rw [finalize_output_started]
              exact hBneg
            · apply divisionK_fresh_pass
              · constructor
                · rw [finalize_output_started]
                  exact hcnd.1
                · rw [finalize_output_ended]
                  exact hcnd.2
              · rw [finalize_division_started]
              · exact hnow
              · exact hdd
            · rw [finalize_previous, finalize_output]
          · rw [if_neg hdraw] at h1
            simp only [Option.some.injEq, Prod.mk.injEq] at h1
            obtain ⟨h1s, h1i⟩ := h1
            subst h1s
            subst h1i
            apply mainK_self_active
            · rw [finalize_trigger]
              exact hb
            · rw [finalize_output_started]
              exact hcnd.1
            · rw [finalize_output_started]
              exact hBneg
            · apply divisionK_fresh_pass
              · constructor
                · rw [finalize_output_started]
                  exact hcnd.1
                · rw [finalize_output_ended]
                  exact hcnd.2
              · rw [finalize_division_started]
              · exact hnow
              · exact hdd
            · rw [finalize_previous, finalize_output]
        · have hd0 : d ≠ 0 := fun h0 => hds (by rw [hdvs, h0])
          have hrt := hcomp d hdvs
          by_cases hge : getDivisionDuration c ≤ ((ticksDiff now d : Int) : ℚ)
          · rw [divisionK_low hcnd hdvs hd0 hge hrt] at h1
            simp only [Option.some.injEq, Prod.mk.injEq] at h1
            obtain ⟨h1s, h1i⟩ := h1
            subst h1s
            subst h1i
            apply mainK_self_of_stable
            · rw [finalize_trigger]
              exact hb
            · apply phase1K_pass
              · intro hcon
                exact hcon.1 (by rw [finalize_output_started]; exact hcnd.1)
              · intro hcon
                apply hBneg
                have h2 := hcon.2
                rw [finalize_output_started] at h2
                exact h2
            · apply divisionK_low_stable
              · constructor
                · rw [finalize_output_started]
                  exact hcnd.1
                · rw [finalize_output_ended]
                  exact hcnd.2
              · intro hcon
                apply hcon
                rw [finalize_division_started]
                show pyTruthy s.division_started_at = true
                rw [hdvs]
                simp [hd0]
              · have hdvy : (finalize ({ s with output := false } :
                    KState)).division_started_at = some d := by
                  rw [finalize_division_started]
                  exact hdvs
                rw [hdvy]
                exact ⟨by simpa using hge, by simpa using hrt⟩
              · rw [finalize_output]
            · rw [finalize_previous, finalize_output]
          · rw [divisionK_mid_pass hcnd hdvs hd0 hge hrt] at h1
            simp only [Option.some.injEq, Prod.mk.injEq] at h1
            obtain ⟨h1s, h1i⟩ := h1
            subst h1s
            subst h1i
            apply mainK_self_of_stable
            · rw [finalize_trigger]
              exact hb
            · apply phase1K_pass
              · simpa only [finalize_output_started, finalize_trigger] using hA
              · simpa only [finalize_output_started] using hB
            · apply divisionK_mid_pass (d := d)
              · constructor
                · rw [finalize_output_started]
                  exact hcnd.1
                · rw [finalize_output_ended]
                  exact hcnd.2
              · rw [finalize_division_started]
                exact hdvs
              · exact hd0
              · exact hge
              · exact hrt
            · rw [finalize_previous, finalize_output]
      · rw [divisionK_skip hcnd] at h1
        simp only [Option.some.injEq, Prod.mk.injEq] at h1
        obtain ⟨h1s, h1i⟩ := h1
        subst h1s
        subst h1i
        apply mainK_self_of_stable
        · rw [finalize_trigger]
          exact hb
        · apply phase1K_pass
          · simpa only [finalize_output_started, finalize_trigger] using hA
          · simpa only [finalize_output_started] using hB
        · apply divisionK_skip
          simpa only [finalize_output_started, finalize_output_ended] using hcnd
        · rw [finalize_previous, finalize_output]

/-- C7 counterexample: in the two-division scenario, after the run reaches
tick 50 the division in flight has completed (`_division_started_at`
cleared); a second tick with the identical clock reading 50 starts the next
division, changing the internal state (and drawing randomness), so `tick` is
not idempotent on a repeated timestamp. -/
theorem karma_C7_counterexample :
    Option.map divisionStartedOf
      (runOps cfgTwoDiv initState [KOp.start 1, KOp.tick 2, KOp.tick 50]
        constRand 0) = some none ∧
    Option.map divisionStartedOf
      (runOps cfgTwoDiv initState
        [KOp.start 1, KOp.tick 2, KOp.tick 50, KOp.tick 50]
        constRand 0) = some (some 50) := by
  refine ⟨by with_unfolding_all decide, by with_unfolding_all decide⟩

/-- C7 witness: the amended idempotence applied at a concrete state, clock
reading and random source. -/
theorem karma_C7_witness :
    mainK cfgSingle initState 1 constRand 0 = some (initState, 0) :=
  karma_C7_second_tick cfgSingle initState 1 constRand 0 initState 0
    (by decide) (by decide) (by decide) (by decide) (by decide)
    (fun d hd => by simp [initState] at hd) (by with_unfolding_all decide)

end Karma
